import Mathlib

/-!
Verification development for the somnia-git-agent deployment controller.
The definitions below are shallow embeddings of the JavaScript backend
(`backend/index.js`, provided as src/unnamed/part_003 lines 1181-3770,
which is the current server snapshot: it contains the safe PM2 wrapper,
the metrics-based liveness reconciler, the secret migration logic and the
clone-on-recovery startup path; src/unnamed/part_004 holds an older
snapshot of the same server) and of the SQLite schema
(`backend/database.js` = src/backend/database.js).

Machine-level JavaScript values are modelled as follows: strings stay
strings (a missing/null string field is the empty string, matching the
`x || ''` coalescing the code applies everywhere), JavaScript objects used
as environment maps become association lists with first-occurrence lookup
and in-place update, thrown errors become `Except` values carrying a
`JsError` record with the `reason`/`message`/`code` fields the code
inspects, and external effects (PM2, the chain RPC, git, the filesystem)
become explicit inputs or emitted action lists.
-/

namespace SomniaGitAgent

/-- Row of the `agents` table (backend/database.js lines 14-25):
`id` INTEGER PRIMARY KEY AUTOINCREMENT, `repo_url`, `branch_name`,
`branch_hash` (UNIQUE), `agent_address`, `status`, `pid`. -/
structure AgentRow where
  id : Nat
  repo_url : String
  branch_name : String
  branch_hash : String
  agent_address : String
  status : String
  pid : Option Nat
deriving Repr, DecidableEq

/-- Row of the `secrets` table (backend/database.js lines 36-45):
`id` INTEGER PRIMARY KEY AUTOINCREMENT, `agent_id`, `key`,
`encrypted_value`.  Note that the schema declares NO uniqueness
constraint on `(agent_id, key)`; the surrogate `id` is modelled by the
position of the row in the list (insertion order = rowid order, which is
also the order `SELECT` returns rows in). -/
structure SecretRow where
  agent_id : Nat
  key : String
  encrypted_value : String
deriving Repr, DecidableEq

/-- State of the two tables the secret logic touches. -/
structure DBState where
  agents : List AgentRow
  secrets : List SecretRow
deriving Repr, DecidableEq

/-- JavaScript error value as inspected by the backend: ethers.js revert
errors carry a `reason` field, every error carries a `message`, transport
errors may carry a `code` such as EAI_AGAIN. -/
structure JsError where
  reason : Option String
  message : String
  code : Option String
deriving Repr, DecidableEq

/-- Occurrence test for a pattern inside a character list: the pattern is
a prefix of some suffix. -/
def containsPat (pat : List Char) : List Char → Bool
  | [] => pat.isEmpty
  | c :: cs => pat.isPrefixOf (c :: cs) || containsPat pat cs

/-- Substring test, modelling JavaScript `String.prototype.includes`. -/
def includesSubstr (s pat : String) : Bool :=
  containsPat pat.toList s.toList

/-- Test for the domain revert signal, from index.js lines 2531-2532:
`deployError.reason === 'Agent already registered' ||
deployError.message?.includes('Agent already registered')`. -/
def isAlreadyRegistered (e : JsError) : Bool :=
  e.reason == some "Agent already registered" ||
    includesSubstr e.message "Agent already registered"

/-- Test for a transient transport failure, from index.js lines 2629-2631:
`message.includes('getaddrinfo') || message.includes('network') ||
code === 'EAI_AGAIN'`. -/
def isTransientNetworkError (e : JsError) : Bool :=
  includesSubstr e.message "getaddrinfo" || includesSubstr e.message "network" ||
    e.code == some "EAI_AGAIN"

/-- Literal `ethers.ZeroAddress`, compared against all over index.js. -/
def zeroAddress : String :=
  "0x0000000000000000000000000000000000000000"

/-- Test `!agentAddress || agentAddress === ethers.ZeroAddress ||
agentAddress === "0x0000...0000"` used by index.js (e.g. lines 2512,
2516, 2548); a null/undefined address is modelled as the empty string. -/
def isMissingAddress (a : String) : Bool :=
  a == "" || a == zeroAddress

/-! ### C1: the liveness reconciler of GET /api/agents

index.js lines 2814-2888.  For each agent row the reconciler reads the
PM2 process list (the process named by the first 16 hex characters of the
branch hash) and the count of metrics received in the last 5 minutes, and
rewrites the status column. -/

/-- Status computed by the PM2-and-metrics sync of GET /api/agents
(index.js lines 2816-2884).  `pm2` is the PM2 status of the process found
in the list (`none` when no process with the supervisor name exists),
`recentMetrics` is `COUNT(*) > 0` over metrics newer than 5 minutes, and
`status` is the current DB status of the agent.  The branches mirror the
source: an online process is `running` when metrics flow, and is also
promoted to `running` from `error`/`deploying` when they do not (the
worker may still be starting); a stopped or errored process with recent
metrics is `running` (worker running outside PM2), without metrics it is
`error`; a missing process with recent metrics is `running`, without
metrics it regresses to `error` only when the row currently says
`running`. -/
def reconcileStatus (pm2 : Option String) (recentMetrics : Bool) (status : String) : String :=
  match pm2 with
  | some s =>
    if s = "online" then
      if recentMetrics then "running"
      else if status = "error" ∨ status = "deploying" then "running"
      else status
    else if s = "stopped" ∨ s = "errored" then
      if recentMetrics then "running" else "error"
    else status
  | none =>
    if recentMetrics then "running"
    else if status = "running" then "error"
    else status

/-! ### C3: POST /api/secrets

index.js lines 3416-3451 stores a secret with
`INSERT OR REPLACE INTO secrets (agent_id, key, encrypted_value)`.
SQLite `INSERT OR REPLACE` only replaces a row when the insert would
violate a uniqueness constraint; the `secrets` schema
(backend/database.js lines 36-45) has a single implicit PRIMARY KEY on
the autoincrement `id` and no UNIQUE over `(agent_id, key)`, so the
statement never conflicts and always appends a fresh row. -/

/-- Effect on the `secrets` table of one POST /api/secrets call for an
agent that exists (index.js lines 3437-3439): append a row with a fresh
rowid. -/
def putSecret (secrets : List SecretRow) (agentId : Nat) (key encrypted_value : String) :
    List SecretRow :=
  secrets ++ [⟨agentId, key, encrypted_value⟩]

/-! ### C10: PM2 process naming versus GET /api/stats/:repo_url/:branch_name

index.js line 1562 names worker processes
`branch_hash.replace('0x', '').substring(0, 16)` while the stats endpoint
(line 3103) calls `getPm2Status(branch_hash)` with the full 0x-prefixed
hash, and `getPm2Status` (lines 1696-1714) passes that string unchanged
to `pm2.describe`. -/

/-- Remove the first occurrence of `pat` from a character list, modelling
JavaScript `String.prototype.replace(pat, '')` with a string pattern
(which replaces only the first occurrence). -/
def stripFirst (pat : List Char) : List Char → List Char
  | [] => []
  | c :: cs =>
    if pat.isPrefixOf (c :: cs) then (c :: cs).drop pat.length
    else c :: stripFirst pat cs

/-- PM2 process name of a branch hash, from index.js line 1562:
`branch_hash.replace('0x', '').substring(0, 16)`. -/
def pm2NameOf (branch_hash : String) : String :=
  String.mk ((stripFirst ['0', 'x'] branch_hash.toList).take 16)

/-- Result of `pm2.describe(name)` over a process list given as
(name, status) pairs, as consumed by getPm2Status (index.js lines
1704-1711): the status of the first process whose name equals the
argument, `none` when there is none (describe returns an empty array). -/
def describePm2 (procs : List (String × String)) (name : String) : Option String :=
  (procs.find? (fun p => p.1 == name)).map (fun p => p.2)

/-- Value of the `status` field returned by
GET /api/stats/:repo_url/:branch_name (index.js line 3108):
`pm2Status || 'unknown'` where `pm2Status = await getPm2Status(branch_hash)`
is called with the full 0x-prefixed branch hash. -/
def statsStatusField (procs : List (String × String)) (branch_hash : String) : String :=
  (describePm2 procs branch_hash).getD "unknown"

/-! ### Environment maps

JavaScript objects used as environment bags (the `secrets` object of
startOrReloadAgent, index.js lines 1460-1555) are modelled as association
lists: property read returns the value of the first matching key,
property write updates the existing entry in place or appends a new
one. -/

/-- Property write `m[k] = v` on a JavaScript object modelled as an
association list: replace the value at the existing entry for `k`, or
append `(k, v)` when absent. -/
def setKey : List (String × String) → String → String → List (String × String)
  | [], k, v => [(k, v)]
  | p :: ps, k, v => if p.1 = k then (p.1, v) :: ps else p :: setKey ps k v

/-- Property read `m[k]` on a JavaScript object modelled as an
association list: value of the first entry with the key, `none` when
absent (an absent property is undefined). -/
def getKey : List (String × String) → String → Option String
  | [], _ => none
  | p :: ps, k => if p.1 = k then some p.2 else getKey ps k

/-- Conditional fallback assignment
`if (!secrets[k] && fallbackVal) secrets[k] = fallbackVal` used by
startOrReloadAgent for REPO_URL and BRANCH_NAME (index.js lines
1472-1480 and 1541-1547); a missing or empty-string property is falsy. -/
def ensureKey (m : List (String × String)) (k fallbackVal : String) :
    List (String × String) :=
  if (getKey m k).getD "" = "" ∧ fallbackVal ≠ "" then setKey m k fallbackVal else m

/-- Initial `secrets` object of startOrReloadAgent (index.js lines
1460-1467): the five default variables.  `backendUrl` and `rpcUrl` model
`process.env.BACKEND_URL` and `process.env.SOMNIA_RPC_URL` (absent =
`none`), with the defaults of lines 1464-1465. -/
def defaultEnv (backendUrl rpcUrl : Option String) (agent : AgentRow) :
    List (String × String) :=
  [("AGENT_CONTRACT_ADDRESS", agent.agent_address),
   ("REPO_URL", agent.repo_url),
   ("BRANCH_NAME", if agent.branch_name = "" then "main" else agent.branch_name),
   ("BACKEND_URL", backendUrl.getD "https://somnia-git-agent.onrender.com"),
   ("SOMNIA_RPC_URL", rpcUrl.getD "https://dream-rpc.somnia.network")]

/-- Environment map passed to PM2 by startOrReloadAgent (index.js lines
1459-1557): start from the defaults, apply the pre-query REPO_URL /
BRANCH_NAME fallbacks (lines 1472-1480), decrypt every secret row
returned for the agent into the map (lines 1537-1539, later rows
overwriting earlier ones), then apply the post-query fallbacks (lines
1541-1547).  `decrypt` models `crypto.decrypt` of simple-crypto-js. -/
def buildEnv (decrypt : String → String) (backendUrl rpcUrl : Option String)
    (agent : AgentRow) (rows : List SecretRow) : List (String × String) :=
  let base := ensureKey (ensureKey (defaultEnv backendUrl rpcUrl agent)
    "REPO_URL" agent.repo_url) "BRANCH_NAME" agent.branch_name
  let merged := rows.foldl (fun m r => setKey m r.key (decrypt r.encrypted_value)) base
  ensureKey (ensureKey merged "REPO_URL" agent.repo_url) "BRANCH_NAME" agent.branch_name

/-! ### C2: secret selection and migration in startOrReloadAgent

index.js lines 1485-1535: the secrets for the worker environment are
first read with `SELECT ... FROM secrets WHERE agent_id = ?`; only when
that returns no rows does the code run the branch-hash join
`SELECT s.key, s.encrypted_value FROM secrets s INNER JOIN agents a ON
s.agent_id = a.id WHERE a.branch_hash = ? AND a.id != ?`, copy each
found row to the current agent id with `INSERT OR REPLACE` (an append,
see the C3 note on the schema), and re-run the first query. -/

/-- Rows returned by `SELECT key, encrypted_value FROM secrets WHERE
agent_id = ?` (index.js line 1485). -/
def ownSecrets (db : DBState) (agent : AgentRow) : List SecretRow :=
  db.secrets.filter (fun s => s.agent_id == agent.id)

/-- Rows returned by the branch-hash join of index.js lines 1495-1499:
secrets whose owning agents row has the given branch hash and a different
id than the current agent. -/
def joinOldSecrets (db : DBState) (agent : AgentRow) (branch_hash : String) :
    List SecretRow :=
  db.secrets.filter (fun s =>
    db.agents.any (fun a =>
      a.id == s.agent_id && a.branch_hash == branch_hash && !(a.id == agent.id)))

/-- Secret rows handed to the env builder by startOrReloadAgent (index.js
lines 1485-1535), together with the resulting secrets table: when the
current agent id owns at least one secret the own rows are used
unchanged; otherwise the old rows found by the branch-hash join are
copied to the current agent id (appended, in join order) and the own rows
are re-queried. -/
def selectSecretRows (db : DBState) (agent : AgentRow) (branch_hash : String) :
    DBState × List SecretRow :=
  let own := ownSecrets db agent
  if own.isEmpty then
    let old := joinOldSecrets db agent branch_hash
    if old.isEmpty then (db, own)
    else
      let migrated := old.map (fun s => ⟨agent.id, s.key, s.encrypted_value⟩)
      let db2 : DBState := ⟨db.agents, db.secrets ++ migrated⟩
      (db2, ownSecrets db2 agent)
  else (db, own)

/-! ### C4 and C6: contract resolution in the push handler

index.js lines 2503-2636, the branch of POST /webhook/github/push taken
when no agents row exists for the pushed branch.  Chain interactions are
inputs: `lookup1` is the first `factoryContract.agents(branch_hash)` read
(line 2514), `register` is the `registerAgent` transaction (lines
2520-2522), `lookup2` is the re-read after registration or after the
already-registered revert (lines 2527 and 2536).  `addr0` is the address
found by the earlier on-chain check of lines 2450-2488 (`none` when that
check threw or the branch was unregistered). -/

/-- Address resolution of index.js lines 2513-2541: read the registry;
if the branch is unregistered send `registerAgent` and re-read; a revert
carrying the domain signal Agent already registered is resolved by
re-reading the registry instead of propagating (lines 2529-2537); any
other error is rethrown (line 2539). -/
def registerIfMissing (lookup1 : Except JsError String) (register : Except JsError Unit)
    (lookup2 : Except JsError String) : Except JsError String :=
  match lookup1 with
  | .error e => .error e
  | .ok a =>
    if isMissingAddress a then
      match register with
      | .ok _ => lookup2
      | .error e => if isAlreadyRegistered e then lookup2 else .error e
    else .ok a

/-- Full resolution step of index.js lines 2512-2546: when the earlier
on-chain check already produced a usable address it is kept, otherwise
the register-if-missing flow runs. -/
def resolveAgentAddress (addr0 : Option String) (lookup1 : Except JsError String)
    (register : Except JsError Unit) (lookup2 : Except JsError String) :
    Except JsError String :=
  if isMissingAddress (addr0.getD "") then registerIfMissing lookup1 register lookup2
  else .ok (addr0.getD "")

/-- Largest id present in an agents table; SQLite AUTOINCREMENT hands the
next insert a strictly larger id. -/
def maxAgentId (db : List AgentRow) : Nat :=
  db.foldr (fun r m => max r.id m) 0

/-- Database commit of index.js lines 2570-2620: re-select by branch
hash; update `agent_address` and set status `deploying` on an existing
row, otherwise insert a fresh row with status `deploying`. -/
def commitDeploy (db : List AgentRow) (repo branch branch_hash addr : String) :
    List AgentRow :=
  match db.find? (fun r => r.branch_hash == branch_hash) with
  | some r => db.map (fun q =>
      if q.id = r.id then ⟨q.id, q.repo_url, q.branch_name, q.branch_hash, addr,
        "deploying", q.pid⟩ else q)
  | none => db ++ [⟨maxAgentId db + 1, repo, branch, branch_hash, addr, "deploying", none⟩]

/-- Effect of the new-agent deployment branch (index.js lines 2503-2636)
on the agents table, up to the database commit: resolve the contract
address; on any error the `contractError` catch (lines 2625-2636) only
logs, leaving the table untouched; a resolved but still-zero address hits
the guard of line 2548 whose throw lands in the same catch; otherwise the
row is committed with status `deploying`. -/
def deployNewAgent (addr0 : Option String) (lookup1 : Except JsError String)
    (register : Except JsError Unit) (lookup2 : Except JsError String)
    (db : List AgentRow) (repo branch branch_hash : String) : List AgentRow :=
  match resolveAgentAddress addr0 lookup1 register lookup2 with
  | .error _ => db
  | .ok addr =>
    if isMissingAddress addr then db
    else commitDeploy db repo branch branch_hash addr

/-- Branch name extraction `req.body.ref.split('/').pop()` of index.js
line 2422: the suffix after the last slash (the whole string when there
is no slash, the empty string when the ref ends in a slash, exactly as
split-then-pop behaves). -/
def lastSegment (ref : String) : String :=
  String.mk (ref.toList.foldl (fun acc c => if c = '/' then [] else acc ++ [c]) [])

/-- HTTP status code sent by POST /webhook/github/push (index.js lines
2399-2434) before any asynchronous work: ping events get 200; a missing
or empty `repository.clone_url` or `ref`, or an empty extracted branch
name, gets 400; every other push gets an immediate 200, whatever the
asynchronous processing later does. -/
def webhookPushResponse (eventType : Option String) (cloneUrl : Option String)
    (ref : Option String) : Nat :=
  if eventType = some "ping" then 200
  else if cloneUrl.getD "" = "" then 400
  else if ref.getD "" = "" then 400
  else if lastSegment (ref.getD "") = "" then 400
  else 200

/-! ### C7: the PM2 start/reload policy of startOrReloadAgent

index.js lines 1591-1692.  PM2 interactions are inputs; the function
records the PM2 calls it makes, the status it writes to the agents row,
and whether the promise resolved or rejected. -/

/-- PM2 call made by startOrReloadAgent, in order. -/
inductive Pm2Act where
  | del (name : String)
  | start (name : String)
  | reloadUpdateEnv (name : String)
deriving Repr, DecidableEq

/-- Outcomes of the PM2 calls startOrReloadAgent may make, given as
inputs: connect and list of the safe wrapper (failures reject after
writing status error, index.js lines 1593-1607), the process list names,
the delete outcome, and the start/reload outcomes carrying an optional
pid. -/
structure Pm2World where
  connectErr : Option JsError
  listErr : Option JsError
  processNames : List String
  deleteErr : Option JsError
  startResult : Except JsError (Option Nat)
  reloadResult : Except JsError (Option Nat)
  entryFileExists : Bool

/-- What one run of the PM2 section of startOrReloadAgent did: the PM2
calls in order, the status written to the agents row, and whether the
promise resolved (`true`) or rejected (`false`). -/
structure Pm2Outcome where
  acts : List Pm2Act
  statusWritten : String
  resolvedOk : Bool
deriving Repr, DecidableEq

/-- PM2 section of startOrReloadAgent (index.js lines 1591-1692).  When a
process with the supervisor name exists it is deleted and started fresh
so the new environment map applies (lines 1611-1648); a failed delete
falls back to `pm2.reload(name, { updateEnv: true })` (lines 1614-1628);
when no process exists, a missing `agent.ts` rejects with status error
(lines 1651-1659), otherwise the process is started (lines 1661-1689).
Every start or reload failure writes status `error` and rejects; every
success writes status `running` and resolves. -/
def startOrReloadPm2 (w : Pm2World) (pm2Name : String) : Pm2Outcome :=
  match w.connectErr with
  | some _ => ⟨[], "error", false⟩
  | none =>
    match w.listErr with
    | some _ => ⟨[], "error", false⟩
    | none =>
      if w.processNames.any (fun n => n == pm2Name) then
        match w.deleteErr with
        | some _ =>
          match w.reloadResult with
          | .error _ => ⟨[.del pm2Name, .reloadUpdateEnv pm2Name], "error", false⟩
          | .ok _ => ⟨[.del pm2Name, .reloadUpdateEnv pm2Name], "running", true⟩
        | none =>
          match w.startResult with
          | .error _ => ⟨[.del pm2Name, .start pm2Name], "error", false⟩
          | .ok _ => ⟨[.del pm2Name, .start pm2Name], "running", true⟩
      else
        if w.entryFileExists then
          match w.startResult with
          | .error _ => ⟨[.start pm2Name], "error", false⟩
          | .ok _ => ⟨[.start pm2Name], "running", true⟩
        else ⟨[], "error", false⟩

/-! ### C5: startup recovery

recoverAgentsFromBlockchain, index.js lines 3542-3721: for every entry of
the hard-coded bootstrap list, look the branch hash up on-chain; when the
branch is registered and the database has no row for the hash, insert a
row with status `deploying`, clone the working tree when the directory or
`agent.ts` is missing (otherwise hard-reset, fetch, checkout, pull), and
start the worker through startOrReloadAgent when `agent.ts` exists after
that (otherwise the row keeps status `deploying` and the agent starts on
the next push).  The secret-migration step of lines 3586-3634 joins
`secrets` with `agents` on the very branch hash that was just verified to
have no agents row, so its result set is empty and it is omitted here. -/

/-- Filesystem and git side effect recorded by the recovery loop. -/
inductive RecAct where
  | clone (branch_hash : String)
  | sync (branch_hash : String)
  | start (branch_hash : String)
deriving Repr, DecidableEq

/-- External world as seen by one recovery pass: `chainAddr` is the
registry read per branch hash (`none` when the call threw; the per-entry
catch of index.js lines 3708-3710 then skips the entry), `entryBefore`
tells whether the agent directory and `agent.ts` exist before the git
step (index.js line 3649), `entryAfter` whether `agent.ts` exists after
it (line 3691), and `startOk` whether startOrReloadAgent succeeded. -/
structure RecoveryWorld where
  chainAddr : String → Option String
  entryBefore : String → Bool
  entryAfter : String → Bool
  startOk : String → Bool

/-- Status update `UPDATE agents SET status = ? WHERE id = ?` as issued
inside startOrReloadAgent for the recovered row. -/
def updateStatusById (db : List AgentRow) (i : Nat) (st : String) : List AgentRow :=
  db.map (fun r =>
    if r.id = i then ⟨r.id, r.repo_url, r.branch_name, r.branch_hash, r.agent_address,
      st, r.pid⟩ else r)

/-- Body of the recovery loop for one bootstrap entry (index.js lines
3567-3711).  `ethersId` models `ethers.id`, keccak256 of the UTF-8
string.  The state is the agents table plus the recorded actions. -/
def recoverOne (ethersId : String → String) (w : RecoveryWorld)
    (st : List AgentRow × List RecAct) (p : String × String) :
    List AgentRow × List RecAct :=
  let h := ethersId (p.1 ++ "/" ++ p.2)
  match w.chainAddr h with
  | none => st
  | some addr =>
    if isMissingAddress addr then st
    else if st.1.any (fun r => r.branch_hash == h) then st
    else
      let newId := maxAgentId st.1 + 1
      let row : AgentRow := ⟨newId, p.1, p.2, h, addr, "deploying", none⟩
      let db1 := st.1 ++ [row]
      let act := if w.entryBefore h then RecAct.sync h else RecAct.clone h
      if w.entryAfter h then
        let st2 := if w.startOk h then "running" else "error"
        (updateStatusById db1 newId st2, st.2 ++ [act, RecAct.start h])
      else (db1, st.2 ++ [act])

/-- Whole recovery pass (index.js lines 3542-3721): fold the loop body
over the bootstrap list, starting from the current agents table. -/
def recoverAgentsFromBlockchain (ethersId : String → String) (w : RecoveryWorld)
    (bootstrap : List (String × String)) (db : List AgentRow) :
    List AgentRow × List RecAct :=
  bootstrap.foldl (recoverOne ethersId w) (db, [])

/-- Expected observable outcome of recovery for one bootstrap entry `p`
whose branch hash is `h` and whose on-chain address is `addr`: the final
table holds a row for the branch whose status is `running`/`error` after
a start attempt and still `deploying` when the entrypoint was missing;
the pass cloned (or synced) the working tree, and attempted a start
exactly when the entrypoint existed afterwards. -/
def recoveryOutcomeOk (w : RecoveryWorld) (h addr : String) (p : String × String)
    (res : List AgentRow × List RecAct) : Prop :=
  ∃ r ∈ res.1, r.repo_url = p.1 ∧ r.branch_name = p.2 ∧ r.branch_hash = h ∧
    r.agent_address = addr ∧
    r.status = (if w.entryAfter h then (if w.startOk h then "running" else "error")
      else "deploying") ∧
    ((if w.entryBefore h then RecAct.sync h else RecAct.clone h) ∈ res.2) ∧
    (w.entryAfter h = true → RecAct.start h ∈ res.2) ∧
    (w.entryAfter h = false → RecAct.start h ∉ res.2)

/-! ### C9: the branch-hash invariant of the agents table

Every code path that inserts into `agents` computes
`branch_hash = ethers.id(repo_url + "/" + branch_name)` from the same
`repo_url` and `branch_name` it stores, and inserts only after a
`SELECT ... WHERE branch_hash = ?` found nothing; the schema additionally
declares `branch_hash TEXT NOT NULL UNIQUE` (backend/database.js line
19), so a conflicting concurrent insert errors out without a row.  The
insert sites: the push handler (index.js lines 2602-2610), the
/webhook/github handler (lines 363 and 475 of the older snapshot share
the same shape), the manual trigger (lines 2725-2732), the metrics
self-heal (lines 3260-3270), startup recovery (lines 3605-3614).  Status
updates (`SET status/pid`) and address updates (`SET agent_address`)
never touch `repo_url`, `branch_name` or `branch_hash`. -/

/-- One database write against the agents table, by site. -/
inductive AgentOp where
  | pushDeploy (repo branch addr : String)
  | manualTrigger (repo branch addr : String)
  | metricsSelfHeal (repo branch addr : String)
  | startupRecover (repo branch addr : String)
  | setStatus (i : Nat) (status : String) (pid : Option Nat)
  | setAddress (i : Nat) (addr : String)
deriving Repr, DecidableEq

/-- Guarded insert shared by all four insert sites: compute the branch
hash from the stored fields, do nothing when a row with that hash already
exists (the preceding SELECT found it, or the UNIQUE constraint rejects
the insert), otherwise append with a fresh id. -/
def insertAgentIfAbsent (ethersId : String → String) (db : List AgentRow)
    (repo branch addr status : String) : List AgentRow :=
  let h := ethersId (repo ++ "/" ++ branch)
  if db.any (fun r => r.branch_hash == h) then db
  else db ++ [⟨maxAgentId db + 1, repo, branch, h, addr, status, none⟩]

/-- Semantics of one agents-table write.  The metrics self-heal inserts
with status `running` (index.js line 3268), the other sites with
`deploying`. -/
def applyAgentOp (ethersId : String → String) (db : List AgentRow) :
    AgentOp → List AgentRow
  | .pushDeploy r b a => insertAgentIfAbsent ethersId db r b a "deploying"
  | .manualTrigger r b a => insertAgentIfAbsent ethersId db r b a "deploying"
  | .metricsSelfHeal r b a => insertAgentIfAbsent ethersId db r b a "running"
  | .startupRecover r b a => insertAgentIfAbsent ethersId db r b a "deploying"
  | .setStatus i s p => db.map (fun r =>
      if r.id = i then ⟨r.id, r.repo_url, r.branch_name, r.branch_hash, r.agent_address,
        s, p⟩ else r)
  | .setAddress i a => db.map (fun r =>
      if r.id = i then ⟨r.id, r.repo_url, r.branch_name, r.branch_hash, a,
        r.status, r.pid⟩ else r)

/-- Agents table produced by a sequence of writes against an initially
empty database. -/
def runAgentOps (ethersId : String → String) (ops : List AgentOp) : List AgentRow :=
  ops.foldl (applyAgentOp ethersId) []

/-- Invariant claimed by the specification: every row hashes its own
`repo_url`/`branch_name`, and no two rows share a branch hash. -/
def agentsInvariant (ethersId : String → String) (db : List AgentRow) : Prop :=
  (∀ r ∈ db, r.branch_hash = ethersId (r.repo_url ++ "/" ++ r.branch_name)) ∧
    db.Pairwise (fun a b => a.branch_hash ≠ b.branch_hash)

/-! ## Association-list lemmas -/

theorem getKey_setKey_self (m : List (String × String)) (k v : String) :
    getKey (setKey m k v) k = some v := by
  induction m with
  | nil => simp [setKey, getKey]
  | cons p ps ih =>
    by_cases hp : p.1 = k
    · simp [setKey, hp, getKey]
    · simpa [setKey, hp, getKey] using ih

theorem getKey_setKey_ne (m : List (String × String)) (k v k2 : String) (hne : k2 ≠ k) :
    getKey (setKey m k v) k2 = getKey m k2 := by
  induction m with
  | nil => simp [setKey, getKey, Ne.symm hne]
  | cons p ps ih =>
    by_cases hp : p.1 = k
    · have hp2 : ¬(p.1 = k2) := by rw [hp]; exact Ne.symm hne
      simp [setKey, hp, getKey, hp2, Ne.symm hne]
    · by_cases hp2 : p.1 = k2
      · simp [setKey, hp, getKey, hp2, hne]
      · simpa [setKey, hp, getKey, hp2] using ih

theorem getKey_setKey_isSome (m : List (String × String)) (k v k2 : String)
    (h : (getKey m k2).isSome = true) : (getKey (setKey m k v) k2).isSome = true := by
  by_cases hk : k2 = k
  · subst hk; rw [getKey_setKey_self]; rfl
  · rw [getKey_setKey_ne m k v k2 hk]; exact h

theorem getKey_ensureKey_ne (m : List (String × String)) (k fb k2 : String)
    (hne : k2 ≠ k) : getKey (ensureKey m k fb) k2 = getKey m k2 := by
  unfold ensureKey
  split_ifs with h
  · exact getKey_setKey_ne m k fb k2 hne
  · rfl

theorem getKey_ensureKey_isSome (m : List (String × String)) (k fb k2 : String)
    (h : (getKey m k2).isSome = true) : (getKey (ensureKey m k fb) k2).isSome = true := by
  unfold ensureKey
  split_ifs with hc
  · exact getKey_setKey_isSome m k fb k2 h
  · exact h

theorem ensureKey_nonempty (m : List (String × String)) (k fb : String) (hfb : fb ≠ "") :
    ∃ s, getKey (ensureKey m k fb) k = some s ∧ s ≠ "" := by
  unfold ensureKey
  split_ifs with h
  · exact ⟨fb, getKey_setKey_self m k fb, hfb⟩
  · have hA : ¬((getKey m k).getD "" = "") := fun hA => h ⟨hA, hfb⟩
    cases hg : getKey m k with
    | none => rw [hg] at hA; simp at hA
    | some s =>
      rw [hg] at hA
      exact ⟨s, rfl, by simpa using hA⟩

theorem foldl_env_isSome (d : String → String) (rows : List SecretRow) :
    ∀ (m : List (String × String)) (k2 : String), (getKey m k2).isSome = true →
      (getKey (rows.foldl (fun m r => setKey m r.key (d r.encrypted_value)) m) k2).isSome
        = true := by
  induction rows with
  | nil => intro m k2 h; simpa using h
  | cons r rs ih =>
    intro m k2 h
    exact ih _ _ (getKey_setKey_isSome m r.key (d r.encrypted_value) k2 h)

theorem foldl_env_mem_isSome (d : String → String) :
    ∀ (rows : List SecretRow) (r : SecretRow), r ∈ rows →
      ∀ m : List (String × String),
        (getKey (rows.foldl (fun m r => setKey m r.key (d r.encrypted_value)) m)
          r.key).isSome = true := by
  intro rows
  induction rows with
  | nil => intro r hr; cases hr
  | cons q qs ih =>
    intro r hr m
    rcases List.mem_cons.mp hr with h | h
    · subst h
      exact foldl_env_isSome d qs _ _ (by rw [getKey_setKey_self]; rfl)
    · exact ih r h _

theorem foldl_env_no_key (d : String → String) :
    ∀ (rows : List SecretRow) (m : List (String × String)) (k : String),
      (∀ r ∈ rows, r.key ≠ k) →
      getKey (rows.foldl (fun m r => setKey m r.key (d r.encrypted_value)) m) k
        = getKey m k := by
  intro rows
  induction rows with
  | nil => intro m k _; rfl
  | cons q qs ih =>
    intro m k hk
    have hq : q.key ≠ k := hk q (List.mem_cons_self q qs)
    rw [List.foldl_cons, ih _ k (fun r hr => hk r (List.mem_cons_of_mem q hr)),
      getKey_setKey_ne m q.key (d q.encrypted_value) k (Ne.symm hq)]

theorem foldl_env_last (d : String → String) :
    ∀ (rows : List SecretRow) (m : List (String × String)) (k : String),
      (∃ r ∈ rows, r.key = k) →
      ∃ r ∈ rows, r.key = k ∧
        getKey (rows.foldl (fun m r => setKey m r.key (d r.encrypted_value)) m) k
          = some (d r.encrypted_value) := by
  intro rows
  induction rows with
  | nil => intro m k h; exact absurd h (by simp)
  | cons q qs ih =>
    intro m k hex
    by_cases hqs : ∃ r ∈ qs, r.key = k
    · rcases ih (setKey m q.key (d q.encrypted_value)) k hqs with ⟨r, hr, hrk, heq⟩
      exact ⟨r, List.mem_cons_of_mem q hr, hrk, heq⟩
    · have hqk : q.key = k := by
        rcases hex with ⟨r, hr, hrk⟩
        rcases List.mem_cons.mp hr with h | h
        · rw [← h]; exact hrk
        · exact absurd ⟨r, h, hrk⟩ hqs
      refine ⟨q, List.mem_cons_self q qs, hqk, ?_⟩
      have hnone : ∀ r ∈ qs, r.key ≠ k := fun r hr hk => hqs ⟨r, hr, hk⟩
      rw [List.foldl_cons, foldl_env_no_key d qs _ k hnone, ← hqk,
        getKey_setKey_self]

/-! ## C1 -/

/-- C1: whenever GET /api/agents runs the liveness reconciler, an agent
whose PM2 process is stopped or errored but which has a metric from the
last 5 minutes is set to `running`, an agent whose PM2 process is missing
but which has recent metrics is likewise set to `running`, and the
reconciler moves a row to `error` only when the PM2 state is not online
and there are no recent metrics. -/
theorem reconcileStatus_liveness_table (pm2 : Option String) (recent : Bool) (st : String) :
    ((pm2 = some "stopped" ∨ pm2 = some "errored") → recent = true →
      reconcileStatus pm2 recent st = "running") ∧
    (pm2 = none → recent = true → reconcileStatus pm2 recent st = "running") ∧
    (reconcileStatus pm2 recent st = "error" → st ≠ "error" →
      pm2 ≠ some "online" ∧ recent = false) := by
  refine ⟨?_, ?_, ?_⟩
  · rintro (rfl | rfl) rfl <;> simp [reconcileStatus]
  · rintro rfl rfl; simp [reconcileStatus]
  · intro h hst
    cases pm2 with
    | none =>
      cases recent with
      | true => simp [reconcileStatus] at h
      | false => exact ⟨by simp, rfl⟩
    | some s =>
      cases recent with
      | true =>
        by_cases hs : s = "online"
        · subst hs; simp [reconcileStatus] at h
        · by_cases hs2 : s = "stopped" ∨ s = "errored"
          · simp [reconcileStatus, hs, hs2] at h
          · simp [reconcileStatus, hs, hs2] at h
            exact absurd h hst
      | false =>
        refine ⟨?_, rfl⟩
        intro hc
        rw [hc] at h
        by_cases hcond : st = "error" ∨ st = "deploying"
        · simp [reconcileStatus, hcond] at h
        · simp [reconcileStatus, hcond] at h
          exact hcond (Or.inl h)

theorem reconcileStatus_liveness_table_witness :
    reconcileStatus (some "stopped") true "error" = "running" ∧
    reconcileStatus none true "deploying" = "running" ∧
    ((some "stopped" : Option String) ≠ some "online" ∧ false = false) :=
  ⟨(reconcileStatus_liveness_table (some "stopped") true "error").1 (Or.inl rfl) rfl,
   (reconcileStatus_liveness_table none true "deploying").2.1 rfl rfl,
   (reconcileStatus_liveness_table (some "stopped") false "running").2.2
     (by decide) (by decide)⟩

/-! ## C2 -/

/-- C2 counterexample: with two agent rows for branch hash 0xh (ids 1 and
2) and one secret under each id, building the environment for agent 2
migrates nothing — the secret B stored under the prior id 1 is neither
copied to agent 2 nor present in the environment, because the code only
runs the branch-hash join when the current agent id owns no secrets at
all (index.js line 1489). -/
theorem selectSecretRows_prior_secret_skipped :
    ((selectSecretRows
        ⟨[⟨1, "r", "b", "0xh", "0xa", "running", none⟩,
          ⟨2, "r", "b", "0xh", "0xa", "running", none⟩],
         [⟨1, "B", "cB"⟩, ⟨2, "A", "cA"⟩]⟩
        ⟨2, "r", "b", "0xh", "0xa", "running", none⟩ "0xh").1.secrets.any
          (fun s => s.agent_id == 2 && s.key == "B")) = false ∧
    getKey (buildEnv (fun c => c) none none ⟨2, "r", "b", "0xh", "0xa", "running", none⟩
        (selectSecretRows
          ⟨[⟨1, "r", "b", "0xh", "0xa", "running", none⟩,
            ⟨2, "r", "b", "0xh", "0xa", "running", none⟩],
           [⟨1, "B", "cB"⟩, ⟨2, "A", "cA"⟩]⟩
          ⟨2, "r", "b", "0xh", "0xa", "running", none⟩ "0xh").2) "B" = none := by
  exact ⟨rfl, rfl⟩

/-- C2 as amended: when the current agent id owns no secret rows, every
secret found by the branch-hash join over prior agent ids is copied into
the current agent id, and (for keys other than the two names the
REPO_URL/BRANCH_NAME fallbacks may rewrite) the environment maps the
secret key to the decrypted value of one of the copied rows for that
key. -/
theorem selectSecretRows_migration (decrypt : String → String) (bu ru : Option String)
    (db : DBState) (agent : AgentRow) (h : String)
    (hown : ownSecrets db agent = [])
    (s : SecretRow) (hs : s ∈ joinOldSecrets db agent h)
    (hk1 : s.key ≠ "REPO_URL") (hk2 : s.key ≠ "BRANCH_NAME") :
    (⟨agent.id, s.key, s.encrypted_value⟩ : SecretRow)
        ∈ (selectSecretRows db agent h).1.secrets ∧
    ∃ v, getKey (buildEnv decrypt bu ru agent (selectSecretRows db agent h).2) s.key
        = some (decrypt v) ∧
      (⟨agent.id, s.key, v⟩ : SecretRow) ∈ (selectSecretRows db agent h).2 := by
  have hne : joinOldSecrets db agent h ≠ [] := List.ne_nil_of_mem hs
  have hres : selectSecretRows db agent h =
      (⟨db.agents, db.secrets ++ (joinOldSecrets db agent h).map
          (fun s => ⟨agent.id, s.key, s.encrypted_value⟩)⟩,
        ownSecrets ⟨db.agents, db.secrets ++ (joinOldSecrets db agent h).map
          (fun s => ⟨agent.id, s.key, s.encrypted_value⟩)⟩ agent) := by
    rw [selectSecretRows]
    simp only [hown, List.isEmpty_nil, if_true]
    rw [if_neg (by simpa [List.isEmpty_iff] using hne)]
  have hmig : ownSecrets ⟨db.agents, db.secrets ++ (joinOldSecrets db agent h).map
      (fun s => ⟨agent.id, s.key, s.encrypted_value⟩)⟩ agent =
      (joinOldSecrets db agent h).map (fun s => ⟨agent.id, s.key, s.encrypted_value⟩) := by
    rw [ownSecrets] at hown ⊢
    simp only [List.filter_append, hown, List.nil_append]
    refine List.filter_eq_self.mpr ?_
    intro a ha
    rcases List.mem_map.mp ha with ⟨s0, _, hs0⟩
    rw [← hs0]
    exact beq_self_eq_true agent.id
  have hrows : (selectSecretRows db agent h).2 =
      (joinOldSecrets db agent h).map (fun s => ⟨agent.id, s.key, s.encrypted_value⟩) := by
    rw [hres, hmig]
  constructor
  · rw [hres]
    exact List.mem_append_right _ (List.mem_map.mpr ⟨s, hs, rfl⟩)
  · have hex : ∃ r ∈ (selectSecretRows db agent h).2, r.key = s.key := by
      rw [hrows]
      exact ⟨⟨agent.id, s.key, s.encrypted_value⟩, List.mem_map.mpr ⟨s, hs, rfl⟩, rfl⟩
    rcases foldl_env_last decrypt (selectSecretRows db agent h).2
        (ensureKey (ensureKey (defaultEnv bu ru agent) "REPO_URL" agent.repo_url)
          "BRANCH_NAME" agent.branch_name) s.key hex with ⟨r, hr, hrk, heq⟩
    refine ⟨r.encrypted_value, ?_, ?_⟩
    · rw [buildEnv]
      rw [getKey_ensureKey_ne _ _ _ _ hk2, getKey_ensureKey_ne _ _ _ _ hk1]
      exact heq
    · have : r = (⟨agent.id, s.key, r.encrypted_value⟩ : SecretRow) := by
        rw [hrows] at hr
        rcases List.mem_map.mp hr with ⟨s0, _, hs0⟩
        rw [← hs0] at hrk ⊢
        simp at hrk
        simp [hrk]
      rw [← this]
      exact hr

theorem selectSecretRows_migration_witness :
    (⟨2, "K", "cK"⟩ : SecretRow) ∈ (selectSecretRows
        ⟨[⟨1, "r", "b", "0xh", "0xa", "error", none⟩], [⟨1, "K", "cK"⟩]⟩
        ⟨2, "r", "b", "0xh", "0xa", "deploying", none⟩ "0xh").1.secrets ∧
    ∃ v, getKey (buildEnv (fun c => c) none none
        ⟨2, "r", "b", "0xh", "0xa", "deploying", none⟩
        (selectSecretRows
          ⟨[⟨1, "r", "b", "0xh", "0xa", "error", none⟩], [⟨1, "K", "cK"⟩]⟩
          ⟨2, "r", "b", "0xh", "0xa", "deploying", none⟩ "0xh").2) "K" = some v ∧
      (⟨2, "K", v⟩ : SecretRow) ∈ (selectSecretRows
        ⟨[⟨1, "r", "b", "0xh", "0xa", "error", none⟩], [⟨1, "K", "cK"⟩]⟩
        ⟨2, "r", "b", "0xh", "0xa", "deploying", none⟩ "0xh").2 :=
  selectSecretRows_migration (fun c => c) none none
    ⟨[⟨1, "r", "b", "0xh", "0xa", "error", none⟩], [⟨1, "K", "cK"⟩]⟩
    ⟨2, "r", "b", "0xh", "0xa", "deploying", none⟩ "0xh" rfl
    ⟨1, "K", "cK"⟩ (by decide) (by decide) (by decide)

/-! ## C3 -/

/-- C3: the claim that POST /api/secrets is an idempotent upsert keyed on
(agent_id, key) fails on the code: the `secrets` schema has no UNIQUE
constraint over (agent_id, key), so the `INSERT OR REPLACE` of index.js
line 3438 (whose own comment says upsert) never conflicts and always
appends.  Setting the same key twice with different values leaves two
rows for that (agent_id, key), not one. -/
theorem putSecret_not_an_upsert :
    putSecret (putSecret [] 1 "API_KEY" "cipher-one") 1 "API_KEY" "cipher-two" =
      [⟨1, "API_KEY", "cipher-one"⟩, ⟨1, "API_KEY", "cipher-two"⟩] ∧
    ((putSecret (putSecret [] 1 "API_KEY" "cipher-one") 1 "API_KEY" "cipher-two").filter
      (fun s => s.agent_id == 1 && s.key == "API_KEY")).length = 2 := by
  exact ⟨rfl, rfl⟩

/-! ## C4 -/

/-- C4: when registerAgent reverts with the domain signal Agent already
registered, the push handler resolves the address by re-reading the
registry (the second lookup) instead of propagating the error, and the
committed row carries status `deploying` — no row is moved to `error` by
this path; a revert with any other reason is rethrown out of the
registration step. -/
theorem registerAgent_already_registered_idempotent
    (e : JsError) (z a : String) (db : List AgentRow) (repo branch h : String) :
    (isAlreadyRegistered e = true → isMissingAddress z = true →
      isMissingAddress a = false →
      resolveAgentAddress none (.ok z) (.error e) (.ok a) = .ok a ∧
      (∀ r ∈ deployNewAgent none (.ok z) (.error e) (.ok a) db repo branch h,
        r.status = "error" → r ∈ db) ∧
      (db.any (fun r => r.branch_hash == h) = false →
        ∃ r ∈ deployNewAgent none (.ok z) (.error e) (.ok a) db repo branch h,
          r.branch_hash = h ∧ r.agent_address = a ∧ r.status = "deploying")) ∧
    (isAlreadyRegistered e = false → isMissingAddress z = true →
      resolveAgentAddress none (.ok z) (.error e) (.ok a) = .error e) := by
  constructor
  · intro he hz ha
    have hresolve : resolveAgentAddress none (.ok z) (.error e) (.ok a) = .ok a := by
      have houter : isMissingAddress "" = true := rfl
      simp [resolveAgentAddress, registerIfMissing, houter, hz, he]
    have hdeploy : deployNewAgent none (.ok z) (.error e) (.ok a) db repo branch h =
        commitDeploy db repo branch h a := by
      rw [deployNewAgent, hresolve]
      simp [ha]
    refine ⟨hresolve, ?_, ?_⟩
    · intro r hr herr
      rw [hdeploy, commitDeploy] at hr
      rcases hfind : db.find? (fun q => q.branch_hash == h) with _ | r0
      · rw [hfind] at hr
        rcases List.mem_append.mp hr with hl | hrr
        · exact hl
        · rw [List.mem_singleton.mp hrr] at herr
          simp at herr
      · rw [hfind] at hr
        rcases List.mem_map.mp hr with ⟨q, hq, hfq⟩
        by_cases hid : q.id = r0.id
        · rw [← hfq] at herr
          simp [hid] at herr
        · rw [← hfq]
          simp [hid]
          exact hq
    · intro hany
      have hfind : db.find? (fun q => q.branch_hash == h) = none :=
        List.find?_eq_none.mpr (List.any_eq_false.mp hany)
      rw [hdeploy, commitDeploy, hfind]
      exact ⟨⟨maxAgentId db + 1, repo, branch, h, a, "deploying", none⟩,
        List.mem_append_right _ (List.mem_singleton.mpr rfl), rfl, rfl, rfl⟩
  · intro he hz
    have houter : isMissingAddress "" = true := rfl
    simp [resolveAgentAddress, registerIfMissing, houter, hz, he]

theorem registerAgent_already_registered_idempotent_witness :
    resolveAgentAddress none (.ok zeroAddress)
        (.error ⟨some "Agent already registered",
          "execution reverted: Agent already registered", none⟩) (.ok "0xA") = .ok "0xA" ∧
    (∃ r ∈ deployNewAgent none (.ok zeroAddress)
        (.error ⟨some "Agent already registered",
          "execution reverted: Agent already registered", none⟩) (.ok "0xA")
        [] "r" "b" "0xh",
      r.branch_hash = "0xh" ∧ r.agent_address = "0xA" ∧ r.status = "deploying") ∧
    resolveAgentAddress none (.ok zeroAddress)
        (.error ⟨none, "insufficient funds for gas", none⟩) (.ok "0xA") =
      .error ⟨none, "insufficient funds for gas", none⟩ :=
  ⟨((registerAgent_already_registered_idempotent
      ⟨some "Agent already registered", "execution reverted: Agent already registered",
        none⟩ zeroAddress "0xA" [] "r" "b" "0xh").1
      (by decide) (by decide) (by decide)).1,
   ((registerAgent_already_registered_idempotent
      ⟨some "Agent already registered", "execution reverted: Agent already registered",
        none⟩ zeroAddress "0xA" [] "r" "b" "0xh").1
      (by decide) (by decide) (by decide)).2.2 (by decide),
   (registerAgent_already_registered_idempotent
      ⟨none, "insufficient funds for gas", none⟩ zeroAddress "0xA" [] "r" "b" "0xh").2
      (by decide) (by decide)⟩

/-! ## C6 -/

/-- C6: a push for a branch with no agents row while the chain RPC is
unreachable (a transient transport error on the registry read) still gets
an immediate 200, and the asynchronous deploy path leaves the agents
table exactly as it was: no row is created, so no agent is marked
`error`. -/
theorem transient_chain_failure_no_row (e : JsError)
    (register : Except JsError Unit) (lookup2 : Except JsError String)
    (db : List AgentRow) (repo branch h cloneUrl ref : String)
    (_htr : isTransientNetworkError e = true)
    (hcu : cloneUrl ≠ "") (href : ref ≠ "") (hseg : lastSegment ref ≠ "") :
    webhookPushResponse (some "push") (some cloneUrl) (some ref) = 200 ∧
    deployNewAgent none (.error e) register lookup2 db repo branch h = db := by
  constructor
  · simp [webhookPushResponse, hcu, href, hseg]
  · rfl

theorem transient_chain_failure_no_row_witness :
    webhookPushResponse (some "push") (some "https://github.com/u/r.git")
        (some "refs/heads/main") = 200 ∧
    deployNewAgent none
        (.error ⟨none, "getaddrinfo ENOTFOUND dream-rpc.somnia.network",
          some "EAI_AGAIN"⟩)
        (.ok ()) (.ok "0xA")
        [⟨1, "r2", "b2", "0xh2", "0xa2", "running", none⟩] "r" "b" "0xh" =
      [⟨1, "r2", "b2", "0xh2", "0xa2", "running", none⟩] :=
  transient_chain_failure_no_row
    ⟨none, "getaddrinfo ENOTFOUND dream-rpc.somnia.network", some "EAI_AGAIN"⟩
    (.ok ()) (.ok "0xA") [⟨1, "r2", "b2", "0xh2", "0xa2", "running", none⟩]
    "r" "b" "0xh" "https://github.com/u/r.git" "refs/heads/main"
    (by decide) (by decide) (by decide) (by decide)

/-! ## C7 -/

/-- C7: when a process with the supervisor name exists it is deleted and
then started fresh; when the delete fails the controller falls back to a
reload with the update-environment flag; and every start or reload
failure writes status `error` to the agents row and rejects the promise
(the failure is surfaced, not masked). -/
theorem startOrReloadPm2_policy (w : Pm2World) (name : String)
    (hc : w.connectErr = none) (hl : w.listErr = none) :
    (w.processNames.any (fun n => n == name) = true →
      (w.deleteErr = none →
        (startOrReloadPm2 w name).acts = [Pm2Act.del name, Pm2Act.start name]) ∧
      (∀ d, w.deleteErr = some d →
        (startOrReloadPm2 w name).acts =
          [Pm2Act.del name, Pm2Act.reloadUpdateEnv name])) ∧
    (∀ e : JsError,
      (w.processNames.any (fun n => n == name) = true → w.deleteErr = none →
        w.startResult = .error e →
        (startOrReloadPm2 w name).statusWritten = "error" ∧
          (startOrReloadPm2 w name).resolvedOk = false) ∧
      (∀ d, w.processNames.any (fun n => n == name) = true → w.deleteErr = some d →
        w.reloadResult = .error e →
        (startOrReloadPm2 w name).statusWritten = "error" ∧
          (startOrReloadPm2 w name).resolvedOk = false) ∧
      (w.processNames.any (fun n => n == name) = false → w.entryFileExists = true →
        w.startResult = .error e →
        (startOrReloadPm2 w name).statusWritten = "error" ∧
          (startOrReloadPm2 w name).resolvedOk = false)) := by
  refine ⟨fun hex => ⟨fun hd => ?_, fun d hd => ?_⟩,
    fun e => ⟨fun hex hd hs => ?_, fun d hex hd hrl => ?_, fun hex hent hs => ?_⟩⟩
  · cases hsr : w.startResult <;>
      simp [startOrReloadPm2, hc, hl, hex, hd, hsr]
  · cases hrl : w.reloadResult <;>
      simp [startOrReloadPm2, hc, hl, hex, hd, hrl]
  · simp [startOrReloadPm2, hc, hl, hex, hd, hs]
  · simp [startOrReloadPm2, hc, hl, hex, hd, hrl]
  · simp [startOrReloadPm2, hc, hl, hex, hent, hs]

theorem startOrReloadPm2_policy_witness :
    (startOrReloadPm2 ⟨none, none, ["abc"], none,
        .error ⟨none, "spawn failed", none⟩, .ok none, true⟩ "abc").acts =
      [Pm2Act.del "abc", Pm2Act.start "abc"] ∧
    (startOrReloadPm2 ⟨none, none, ["abc"], none,
        .error ⟨none, "spawn failed", none⟩, .ok none, true⟩ "abc").statusWritten =
      "error" ∧
    (startOrReloadPm2 ⟨none, none, ["abc"], none,
        .error ⟨none, "spawn failed", none⟩, .ok none, true⟩ "abc").resolvedOk = false ∧
    (startOrReloadPm2 ⟨none, none, ["abc"], some ⟨none, "delete failed", none⟩,
        .ok (some 5), .error ⟨none, "reload failed", none⟩, true⟩ "abc").acts =
      [Pm2Act.del "abc", Pm2Act.reloadUpdateEnv "abc"] ∧
    (startOrReloadPm2 ⟨none, none, ["abc"], some ⟨none, "delete failed", none⟩,
        .ok (some 5), .error ⟨none, "reload failed", none⟩, true⟩ "abc").statusWritten =
      "error" :=
  ⟨((startOrReloadPm2_policy ⟨none, none, ["abc"], none,
      .error ⟨none, "spawn failed", none⟩, .ok none, true⟩ "abc" rfl rfl).1
      (by decide)).1 rfl,
   (((startOrReloadPm2_policy ⟨none, none, ["abc"], none,
      .error ⟨none, "spawn failed", none⟩, .ok none, true⟩ "abc" rfl rfl).2
      ⟨none, "spawn failed", none⟩).1 (by decide) rfl rfl).1,
   (((startOrReloadPm2_policy ⟨none, none, ["abc"], none,
      .error ⟨none, "spawn failed", none⟩, .ok none, true⟩ "abc" rfl rfl).2
      ⟨none, "spawn failed", none⟩).1 (by decide) rfl rfl).2,
   ((startOrReloadPm2_policy ⟨none, none, ["abc"], some ⟨none, "delete failed", none⟩,
      .ok (some 5), .error ⟨none, "reload failed", none⟩, true⟩ "abc" rfl rfl).1
      (by decide)).2 ⟨none, "delete failed", none⟩ rfl,
   (((startOrReloadPm2_policy ⟨none, none, ["abc"], some ⟨none, "delete failed", none⟩,
      .ok (some 5), .error ⟨none, "reload failed", none⟩, true⟩ "abc" rfl rfl).2
      ⟨none, "reload failed", none⟩).2.1 ⟨none, "delete failed", none⟩
      (by decide) rfl rfl).1⟩

/-! ## C9 -/

theorem agentsInvariant_map (ethersId : String → String) (db : List AgentRow)
    (f : AgentRow → AgentRow)
    (hf : ∀ r, (f r).branch_hash = r.branch_hash ∧ (f r).repo_url = r.repo_url ∧
      (f r).branch_name = r.branch_name)
    (hinv : agentsInvariant ethersId db) : agentsInvariant ethersId (db.map f) := by
  constructor
  · intro r hr
    rcases List.mem_map.mp hr with ⟨q, hq, rfl⟩
    rw [(hf q).1, (hf q).2.1, (hf q).2.2]
    exact hinv.1 q hq
  · refine List.Pairwise.map f ?_ hinv.2
    intro a b hab
    rw [(hf a).1, (hf b).1]
    exact hab

theorem insertAgentIfAbsent_preserves (ethersId : String → String) (db : List AgentRow)
    (repo branch addr status : String) (hinv : agentsInvariant ethersId db) :
    agentsInvariant ethersId (insertAgentIfAbsent ethersId db repo branch addr status) := by
  rw [insertAgentIfAbsent]
  split_ifs with hany
  · exact hinv
  · have hall : ∀ r ∈ db, ¬(r.branch_hash == ethersId (repo ++ "/" ++ branch)) = true :=
      List.any_eq_false.mp (Bool.not_eq_true _ ▸ (by simpa using hany))
    constructor
    · intro r hr
      rcases List.mem_append.mp hr with hl | hrr
      · exact hinv.1 r hl
      · rw [List.mem_singleton.mp hrr]
    · refine List.pairwise_append.mpr ⟨hinv.2, List.pairwise_singleton _ _, ?_⟩
      intro a ha b hb
      rw [List.mem_singleton.mp hb]
      intro habs
      exact hall a ha (by simp [habs])

theorem applyAgentOp_preserves (ethersId : String → String) (db : List AgentRow)
    (op : AgentOp) (hinv : agentsInvariant ethersId db) :
    agentsInvariant ethersId (applyAgentOp ethersId db op) := by
  cases op with
  | pushDeploy r b a => exact insertAgentIfAbsent_preserves ethersId db r b a "deploying" hinv
  | manualTrigger r b a => exact insertAgentIfAbsent_preserves ethersId db r b a "deploying" hinv
  | metricsSelfHeal r b a => exact insertAgentIfAbsent_preserves ethersId db r b a "running" hinv
  | startupRecover r b a => exact insertAgentIfAbsent_preserves ethersId db r b a "deploying" hinv
  | setStatus i s p =>
    refine agentsInvariant_map ethersId db _ ?_ hinv
    intro r
    by_cases hr : r.id = i <;> simp [hr]
  | setAddress i a =>
    refine agentsInvariant_map ethersId db _ ?_ hinv
    intro r
    by_cases hr : r.id = i <;> simp [hr]

/-- C9: every agents-table state reachable by the insert and update
sites of the code — webhook push, manual trigger, metrics self-heal,
startup recovery, plus the status/pid and address updates — satisfies the
invariant that each row stores `branch_hash = ethersId(repo_url + "/" +
branch_name)` of its own stored fields, and that no two rows share a
branch hash. -/
theorem runAgentOps_invariant (ethersId : String → String) (ops : List AgentOp) :
    agentsInvariant ethersId (runAgentOps ethersId ops) := by
  suffices hstep : ∀ (ops2 : List AgentOp) (db : List AgentRow),
      agentsInvariant ethersId db →
      agentsInvariant ethersId (ops2.foldl (applyAgentOp ethersId) db) by
    exact hstep ops [] ⟨by simp, List.Pairwise.nil⟩
  intro ops2
  induction ops2 with
  | nil => intro db hdb; exact hdb
  | cons op rest ih =>
    intro db hdb
    exact ih _ (applyAgentOp_preserves ethersId db op hdb)

/-! ## C8 -/

/-- C8 counterexample: for an agent row whose `repo_url` column is empty
(the code reads `agent.repo_url || ''` and only logs when the result is
empty, index.js lines 1462 and 1550), the environment handed to the
worker carries `REPO_URL = ""`, so the claimed post-condition that
REPO_URL is non-empty does not hold. -/
theorem buildEnv_empty_repo_url :
    getKey (buildEnv (fun c => c) none none
      ⟨1, "", "main", "0xh", "0xA", "deploying", none⟩ []) "REPO_URL" = some "" := by
  exact rfl

theorem buildEnv_base_isSome (bu ru : Option String) (agent : AgentRow) (k : String)
    (hk : k = "AGENT_CONTRACT_ADDRESS" ∨ k = "REPO_URL" ∨ k = "BRANCH_NAME" ∨
      k = "BACKEND_URL" ∨ k = "SOMNIA_RPC_URL") :
    (getKey (defaultEnv bu ru agent) k).isSome = true := by
  rcases hk with rfl | rfl | rfl | rfl | rfl <;> simp [defaultEnv, getKey]

theorem buildEnv_isSome_of_merged (decrypt : String → String) (agent : AgentRow)
    (rows : List SecretRow) (m : List (String × String)) (k : String)
    (h : (getKey (rows.foldl (fun m r => setKey m r.key (decrypt r.encrypted_value)) m)
      k).isSome = true) :
    (getKey (ensureKey (ensureKey
        (rows.foldl (fun m r => setKey m r.key (decrypt r.encrypted_value)) m)
        "REPO_URL" agent.repo_url) "BRANCH_NAME" agent.branch_name) k).isSome = true :=
  getKey_ensureKey_isSome _ _ _ _ (getKey_ensureKey_isSome _ _ _ _ h)

/-- C8 as amended: the environment map contains the five default
variables and every decrypted secret key, and — provided the agent row
carries a non-empty `repo_url` and `branch_name` — the post-condition
holds that REPO_URL and BRANCH_NAME are bound to non-empty strings. -/
theorem buildEnv_post_conditions (decrypt : String → String) (bu ru : Option String)
    (agent : AgentRow) (rows : List SecretRow)
    (hr : agent.repo_url ≠ "") (hb : agent.branch_name ≠ "") :
    (∀ k ∈ ["AGENT_CONTRACT_ADDRESS", "REPO_URL", "BRANCH_NAME", "BACKEND_URL",
        "SOMNIA_RPC_URL"],
      (getKey (buildEnv decrypt bu ru agent rows) k).isSome = true) ∧
    (∀ r ∈ rows, (getKey (buildEnv decrypt bu ru agent rows) r.key).isSome = true) ∧
    (∃ s, getKey (buildEnv decrypt bu ru agent rows) "REPO_URL" = some s ∧ s ≠ "") ∧
    (∃ s, getKey (buildEnv decrypt bu ru agent rows) "BRANCH_NAME" = some s ∧ s ≠ "") := by
  refine ⟨?_, ?_, ?_, ?_⟩
  · intro k hk
    have hk5 : k = "AGENT_CONTRACT_ADDRESS" ∨ k = "REPO_URL" ∨ k = "BRANCH_NAME" ∨
        k = "BACKEND_URL" ∨ k = "SOMNIA_RPC_URL" := by
      simpa using hk
    rw [buildEnv]
    refine buildEnv_isSome_of_merged decrypt agent rows _ k ?_
    refine foldl_env_isSome decrypt rows _ k ?_
    refine getKey_ensureKey_isSome _ _ _ _ (getKey_ensureKey_isSome _ _ _ _ ?_)
    exact buildEnv_base_isSome bu ru agent k hk5
  · intro r hrow
    rw [buildEnv]
    exact buildEnv_isSome_of_merged decrypt agent rows _ r.key
      (foldl_env_mem_isSome decrypt rows r hrow _)
  · rw [buildEnv]
    rcases ensureKey_nonempty
        (rows.foldl (fun m r => setKey m r.key (decrypt r.encrypted_value))
          (ensureKey (ensureKey (defaultEnv bu ru agent) "REPO_URL" agent.repo_url)
            "BRANCH_NAME" agent.branch_name))
        "REPO_URL" agent.repo_url hr with ⟨s, hsome, hsne⟩
    refine ⟨s, ?_, hsne⟩
    rw [getKey_ensureKey_ne _ _ _ _ (by decide)]
    exact hsome
  · rw [buildEnv]
    exact ensureKey_nonempty _ "BRANCH_NAME" agent.branch_name hb

theorem buildEnv_post_conditions_witness :
    (∀ k ∈ ["AGENT_CONTRACT_ADDRESS", "REPO_URL", "BRANCH_NAME", "BACKEND_URL",
        "SOMNIA_RPC_URL"],
      (getKey (buildEnv (fun c => c) none none
        ⟨1, "https://github.com/u/r.git", "main", "0xh", "0xA", "deploying", none⟩
        [⟨1, "GROQ_API_KEY", "gsk-cipher"⟩]) k).isSome = true) ∧
    (∀ r ∈ [(⟨1, "GROQ_API_KEY", "gsk-cipher"⟩ : SecretRow)],
      (getKey (buildEnv (fun c => c) none none
        ⟨1, "https://github.com/u/r.git", "main", "0xh", "0xA", "deploying", none⟩
        [⟨1, "GROQ_API_KEY", "gsk-cipher"⟩]) r.key).isSome = true) ∧
    (∃ s, getKey (buildEnv (fun c => c) none none
        ⟨1, "https://github.com/u/r.git", "main", "0xh", "0xA", "deploying", none⟩
        [⟨1, "GROQ_API_KEY", "gsk-cipher"⟩]) "REPO_URL" = some s ∧ s ≠ "") ∧
    (∃ s, getKey (buildEnv (fun c => c) none none
        ⟨1, "https://github.com/u/r.git", "main", "0xh", "0xA", "deploying", none⟩
        [⟨1, "GROQ_API_KEY", "gsk-cipher"⟩]) "BRANCH_NAME" = some s ∧ s ≠ "") :=
  buildEnv_post_conditions (fun c => c) none none
    ⟨1, "https://github.com/u/r.git", "main", "0xh", "0xA", "deploying", none⟩
    [⟨1, "GROQ_API_KEY", "gsk-cipher"⟩] (by decide) (by decide)

/-! ## C5 -/

theorem mem_le_maxAgentId (db : List AgentRow) (r : AgentRow) (hr : r ∈ db) :
    r.id ≤ maxAgentId db := by
  induction db with
  | nil => cases hr
  | cons q qs ih =>
    rcases List.mem_cons.mp hr with rfl | hmem
    · exact le_max_left _ _
    · exact le_trans (ih hmem) (le_max_right _ _)

theorem updateStatusById_mem_of_ne (db : List AgentRow) (i : Nat) (st : String)
    (r : AgentRow) (hr : r ∈ db) (hne : r.id ≠ i) : r ∈ updateStatusById db i st := by
  have hmem := List.mem_map_of_mem (fun q : AgentRow =>
    if q.id = i then (⟨q.id, q.repo_url, q.branch_name, q.branch_hash, q.agent_address,
      st, q.pid⟩ : AgentRow) else q) hr
  simpa [updateStatusById, hne] using hmem

theorem recoverOne_tracks (ethersId : String → String) (w : RecoveryWorld)
    (st : List AgentRow × List RecAct) (q : String × String) (h : String)
    (r : AgentRow) (hr : r ∈ st.1) (hrh : r.branch_hash = h) :
    r ∈ (recoverOne ethersId w st q).1 ∧
    (∀ a ∈ st.2, a ∈ (recoverOne ethersId w st q).2) ∧
    (RecAct.start h ∈ (recoverOne ethersId w st q).2 → RecAct.start h ∈ st.2) := by
  cases hca : w.chainAddr (ethersId (q.1 ++ "/" ++ q.2)) with
  | none =>
    simp only [recoverOne, hca]
    exact ⟨hr, fun a ha => ha, fun hx => hx⟩
  | some addr =>
    by_cases hmiss : isMissingAddress addr = true
    · simp only [recoverOne, hca, hmiss, if_true]
      exact ⟨hr, fun a ha => ha, fun hx => hx⟩
    · by_cases hany : st.1.any (fun r => r.branch_hash == ethersId (q.1 ++ "/" ++ q.2)) = true
      · simp only [recoverOne, hca, hmiss, hany, if_false, if_true]
        exact ⟨hr, fun a ha => ha, fun hx => hx⟩
      · have hqh : ethersId (q.1 ++ "/" ++ q.2) ≠ h := by
          intro heq
          apply hany
          refine List.any_eq_true.mpr ⟨r, hr, ?_⟩
          rw [hrh, heq]
          exact beq_self_eq_true h
        have hid : r.id ≠ maxAgentId st.1 + 1 := by
          have := mem_le_maxAgentId st.1 r hr
          omega
        by_cases hafter : w.entryAfter (ethersId (q.1 ++ "/" ++ q.2)) = true
        · simp only [recoverOne, hca, hmiss, hany, hafter, if_true, if_false]
          refine ⟨?_, ?_, ?_⟩
          · exact updateStatusById_mem_of_ne _ _ _ r
              (List.mem_append_left _ hr) hid
          · intro a ha
            exact List.mem_append_left _ ha
          · intro hx
            rcases List.mem_append.mp hx with hl | hrr
            · exact hl
            · exfalso
              simp only [List.mem_cons, List.not_mem_nil, or_false] at hrr
              rcases hrr with hc | hc
              · by_cases hbef : w.entryBefore (ethersId (q.1 ++ "/" ++ q.2)) = true <;>
                  simp [hbef] at hc
              · injection hc with hh
                exact hqh hh.symm
        · simp only [recoverOne, hca, hmiss, hany, hafter, if_true, if_false]
          refine ⟨List.mem_append_left _ hr, fun a ha => List.mem_append_left _ ha, ?_⟩
          intro hx
          rcases List.mem_append.mp hx with hl | hrr
          · exact hl
          · exfalso
            simp only [List.mem_cons, List.not_mem_nil, or_false] at hrr
            by_cases hbef : w.entryBefore (ethersId (q.1 ++ "/" ++ q.2)) = true <;>
              simp [hbef] at hrr


theorem recoverOne_mem (ethersId : String → String) (w : RecoveryWorld)
    (st : List AgentRow × List RecAct) (q : String × String) (r : AgentRow)
    (hr : r ∈ (recoverOne ethersId w st q).1) :
    r ∈ st.1 ∨ r.branch_hash = ethersId (q.1 ++ "/" ++ q.2) := by
  cases hca : w.chainAddr (ethersId (q.1 ++ "/" ++ q.2)) with
  | none =>
    simp only [recoverOne, hca] at hr
    exact Or.inl hr
  | some addr =>
    by_cases hmiss : isMissingAddress addr = true
    · simp only [recoverOne, hca, hmiss, if_true] at hr
      exact Or.inl hr
    · by_cases hany : st.1.any (fun r => r.branch_hash == ethersId (q.1 ++ "/" ++ q.2)) = true
      · simp only [recoverOne, hca, hmiss, hany, if_true, if_false] at hr
        exact Or.inl hr
      · by_cases hafter : w.entryAfter (ethersId (q.1 ++ "/" ++ q.2)) = true
        · simp only [recoverOne, hca, hmiss, hany, hafter, if_true, if_false] at hr
          rw [updateStatusById] at hr
          rcases List.mem_map.mp hr with ⟨x, hx, hfx⟩
          rcases List.mem_append.mp hx with hxl | hxr
          · have hxid : x.id ≠ maxAgentId st.1 + 1 := by
              have := mem_le_maxAgentId st.1 x hxl
              omega
            left
            rw [← hfx]
            simp only [hxid, if_false]
            exact hxl
          · right
            rw [← hfx, List.mem_singleton.mp hxr]
            simp
        · simp only [recoverOne, hca, hmiss, hany, hafter, if_true, if_false] at hr
          rcases List.mem_append.mp hr with hl | hrr
          · exact Or.inl hl
          · right
            rw [List.mem_singleton.mp hrr]

theorem recoverOne_acts (ethersId : String → String) (w : RecoveryWorld)
    (st : List AgentRow × List RecAct) (q : String × String) (a : RecAct)
    (ha : a ∈ (recoverOne ethersId w st q).2) :
    a ∈ st.2 ∨ a = RecAct.clone (ethersId (q.1 ++ "/" ++ q.2)) ∨
      a = RecAct.sync (ethersId (q.1 ++ "/" ++ q.2)) ∨
      a = RecAct.start (ethersId (q.1 ++ "/" ++ q.2)) := by
  cases hca : w.chainAddr (ethersId (q.1 ++ "/" ++ q.2)) with
  | none =>
    simp only [recoverOne, hca] at ha
    exact Or.inl ha
  | some addr =>
    by_cases hmiss : isMissingAddress addr = true
    · simp only [recoverOne, hca, hmiss, if_true] at ha
      exact Or.inl ha
    · by_cases hany : st.1.any (fun r => r.branch_hash == ethersId (q.1 ++ "/" ++ q.2)) = true
      · simp only [recoverOne, hca, hmiss, hany, if_true, if_false] at ha
        exact Or.inl ha
      · by_cases hafter : w.entryAfter (ethersId (q.1 ++ "/" ++ q.2)) = true
        · simp only [recoverOne, hca, hmiss, hany, hafter, if_true, if_false] at ha
          rcases List.mem_append.mp ha with hl | hrr
          · exact Or.inl hl
          · simp only [List.mem_cons, List.not_mem_nil, or_false] at hrr
            rcases hrr with hc | hc
            · by_cases hbef : w.entryBefore (ethersId (q.1 ++ "/" ++ q.2)) = true
              · rw [if_pos hbef] at hc
                exact Or.inr (Or.inr (Or.inl hc))
              · rw [if_neg hbef] at hc
                exact Or.inr (Or.inl hc)
            · exact Or.inr (Or.inr (Or.inr hc))
        · simp only [recoverOne, hca, hmiss, hany, hafter, if_true, if_false] at ha
          rcases List.mem_append.mp ha with hl | hrr
          · exact Or.inl hl
          · have hc := List.mem_singleton.mp hrr
            by_cases hbef : w.entryBefore (ethersId (q.1 ++ "/" ++ q.2)) = true
            · rw [if_pos hbef] at hc
              exact Or.inr (Or.inr (Or.inl hc))
            · rw [if_neg hbef] at hc
              exact Or.inr (Or.inl hc)

theorem recoverFold_tracks (ethersId : String → String) (w : RecoveryWorld) (h : String) :
    ∀ (bs : List (String × String)) (st : List AgentRow × List RecAct) (r : AgentRow),
      r ∈ st.1 → r.branch_hash = h →
      r ∈ (bs.foldl (recoverOne ethersId w) st).1 ∧
      (∀ a ∈ st.2, a ∈ (bs.foldl (recoverOne ethersId w) st).2) ∧
      (RecAct.start h ∈ (bs.foldl (recoverOne ethersId w) st).2 →
        RecAct.start h ∈ st.2) := by
  intro bs
  induction bs with
  | nil =>
    intro st r h1 _
    exact ⟨h1, fun a ha => ha, fun hx => hx⟩
  | cons q rest ih =>
    intro st r h1 h2
    have hstep := recoverOne_tracks ethersId w st q h r h1 h2
    have hrec := ih (recoverOne ethersId w st q) r hstep.1 h2
    rw [List.foldl_cons]
    exact ⟨hrec.1, fun a ha => hrec.2.1 a (hstep.2.1 a ha),
      fun hx => hstep.2.2 (hrec.2.2 hx)⟩

theorem recoverFold_creates (ethersId : String → String) (w : RecoveryWorld)
    (addr : String) :
    ∀ (bs : List (String × String)) (st : List AgentRow × List RecAct)
      (p : String × String),
      p ∈ bs →
      (∀ q ∈ bs, q = p ∨
        ethersId (q.1 ++ "/" ++ q.2) ≠ ethersId (p.1 ++ "/" ++ p.2)) →
      (∀ r ∈ st.1, r.branch_hash ≠ ethersId (p.1 ++ "/" ++ p.2)) →
      RecAct.start (ethersId (p.1 ++ "/" ++ p.2)) ∉ st.2 →
      w.chainAddr (ethersId (p.1 ++ "/" ++ p.2)) = some addr →
      isMissingAddress addr = false →
      recoveryOutcomeOk w (ethersId (p.1 ++ "/" ++ p.2)) addr p
        (bs.foldl (recoverOne ethersId w) st) := by
  intro bs
  induction bs with
  | nil =>
    intro st p hp
    cases hp
  | cons q rest ih =>
    intro st p hp huniq habs hstart hchain hmiss
    rw [List.foldl_cons]
    by_cases hqp : q = p
    · subst hqp
      have hanyf : (st.1.any fun r => r.branch_hash == ethersId (q.1 ++ "/" ++ q.2))
          = false := by
        refine List.any_eq_false.mpr ?_
        intro r hr
        simp only [beq_iff_eq]
        exact habs r hr
      have hmiss2 : ¬(isMissingAddress addr = true) := by rw [hmiss]; simp
      have hany2 : ¬((st.1.any fun r => r.branch_hash == ethersId (q.1 ++ "/" ++ q.2))
          = true) := by rw [hanyf]; simp
      by_cases hafter : w.entryAfter (ethersId (q.1 ++ "/" ++ q.2)) = true
      · have hstep : recoverOne ethersId w st q =
            (updateStatusById (st.1 ++ [⟨maxAgentId st.1 + 1, q.1, q.2,
                ethersId (q.1 ++ "/" ++ q.2), addr, "deploying", none⟩])
              (maxAgentId st.1 + 1)
              (if w.startOk (ethersId (q.1 ++ "/" ++ q.2)) then "running" else "error"),
             st.2 ++ [(if w.entryBefore (ethersId (q.1 ++ "/" ++ q.2)) then
                RecAct.sync (ethersId (q.1 ++ "/" ++ q.2))
                else RecAct.clone (ethersId (q.1 ++ "/" ++ q.2))),
              RecAct.start (ethersId (q.1 ++ "/" ++ q.2))]) := by
          simp [recoverOne, hchain, hmiss2, hany2, hafter]
        have hrfin : (⟨maxAgentId st.1 + 1, q.1, q.2, ethersId (q.1 ++ "/" ++ q.2), addr,
            (if w.startOk (ethersId (q.1 ++ "/" ++ q.2)) then "running" else "error"),
            none⟩ : AgentRow) ∈ (recoverOne ethersId w st q).1 := by
          rw [hstep]
          have hx : (⟨maxAgentId st.1 + 1, q.1, q.2, ethersId (q.1 ++ "/" ++ q.2), addr,
              "deploying", none⟩ : AgentRow) ∈
              st.1 ++ [⟨maxAgentId st.1 + 1, q.1, q.2, ethersId (q.1 ++ "/" ++ q.2),
                addr, "deploying", none⟩] :=
            List.mem_append_right _ (List.mem_singleton.mpr rfl)
          have hmem := List.mem_map_of_mem (fun r : AgentRow =>
            if r.id = maxAgentId st.1 + 1 then
              (⟨r.id, r.repo_url, r.branch_name, r.branch_hash, r.agent_address,
                (if w.startOk (ethersId (q.1 ++ "/" ++ q.2)) then "running" else "error"),
                r.pid⟩ : AgentRow) else r) hx
          simpa [updateStatusById] using hmem
        have htr := recoverFold_tracks ethersId w (ethersId (q.1 ++ "/" ++ q.2)) rest
          (recoverOne ethersId w st q) _ hrfin rfl
        refine ⟨_, htr.1, rfl, rfl, rfl, rfl, ?_, ?_, ?_, ?_⟩
        · simp [hafter]
        · refine htr.2.1 _ ?_
          rw [hstep]
          exact List.mem_append_right _ (List.mem_cons_self _ _)
        · intro _
          refine htr.2.1 _ ?_
          rw [hstep]
          exact List.mem_append_right _
            (List.mem_cons_of_mem _ (List.mem_singleton.mpr rfl))
        · intro hcontra
          rw [hcontra] at hafter
          cases hafter
      · have hstep : recoverOne ethersId w st q =
            (st.1 ++ [⟨maxAgentId st.1 + 1, q.1, q.2, ethersId (q.1 ++ "/" ++ q.2),
              addr, "deploying", none⟩],
             st.2 ++ [(if w.entryBefore (ethersId (q.1 ++ "/" ++ q.2)) then
                RecAct.sync (ethersId (q.1 ++ "/" ++ q.2))
                else RecAct.clone (ethersId (q.1 ++ "/" ++ q.2)))]) := by
          simp [recoverOne, hchain, hmiss2, hany2, hafter]
        have hrfin : (⟨maxAgentId st.1 + 1, q.1, q.2, ethersId (q.1 ++ "/" ++ q.2), addr,
            "deploying", none⟩ : AgentRow) ∈ (recoverOne ethersId w st q).1 := by
          rw [hstep]
          exact List.mem_append_right _ (List.mem_singleton.mpr rfl)
        have htr := recoverFold_tracks ethersId w (ethersId (q.1 ++ "/" ++ q.2)) rest
          (recoverOne ethersId w st q) _ hrfin rfl
        have hafterf : w.entryAfter (ethersId (q.1 ++ "/" ++ q.2)) = false := by
          simpa using hafter
        refine ⟨_, htr.1, rfl, rfl, rfl, rfl, ?_, ?_, ?_, ?_⟩
        · simp [hafterf]
        · refine htr.2.1 _ ?_
          rw [hstep]
          exact List.mem_append_right _ (List.mem_singleton.mpr rfl)
        · intro hcontra
          rw [hcontra] at hafterf
          cases hafterf
        · intro _ hcontra
          have hin := htr.2.2 hcontra
          rw [hstep] at hin
          rcases List.mem_append.mp hin with hl | hrr
          · exact hstart hl
          · have hc := List.mem_singleton.mp hrr
            by_cases hbef : w.entryBefore (ethersId (q.1 ++ "/" ++ q.2)) = true
            · rw [if_pos hbef] at hc
              cases hc
            · rw [if_neg hbef] at hc
              cases hc
    · have hne : ethersId (q.1 ++ "/" ++ q.2) ≠ ethersId (p.1 ++ "/" ++ p.2) :=
        (huniq q (List.mem_cons_self q rest)).resolve_left hqp
      have hp2 : p ∈ rest := by
        rcases List.mem_cons.mp hp with hpe | h2
        · exact absurd hpe.symm hqp
        · exact h2
      refine ih (recoverOne ethersId w st q) p hp2
        (fun q2 hq2 => huniq q2 (List.mem_cons_of_mem q hq2)) ?_ ?_ hchain hmiss
      · intro r hr
        rcases recoverOne_mem ethersId w st q r hr with hl | hrh
        · exact habs r hl
        · rw [hrh]
          exact hne
      · intro hx
        rcases recoverOne_acts ethersId w st q _ hx with hl | hc | hc | hc
        · exact hstart hl
        · cases hc
        · cases hc
        · injection hc with hh
          exact hne hh.symm

/-- C5: on startup recovery, every bootstrap pair that is registered
on-chain and has no agents row gets a row created with status
`deploying`; the pass clones the working tree when the directory or
entrypoint is missing and syncs it otherwise, then starts the worker
exactly when `agent.ts` exists after the git step — otherwise the row is
left at `deploying` (to start on the next push). -/
theorem recoverAgents_bootstrap (ethersId : String → String) (w : RecoveryWorld)
    (bootstrap : List (String × String)) (db : List AgentRow)
    (p : String × String) (addr : String)
    (hp : p ∈ bootstrap)
    (huniq : ∀ q ∈ bootstrap, q = p ∨
      ethersId (q.1 ++ "/" ++ q.2) ≠ ethersId (p.1 ++ "/" ++ p.2))
    (habs : ∀ r ∈ db, r.branch_hash ≠ ethersId (p.1 ++ "/" ++ p.2))
    (hchain : w.chainAddr (ethersId (p.1 ++ "/" ++ p.2)) = some addr)
    (hmiss : isMissingAddress addr = false) :
    recoveryOutcomeOk w (ethersId (p.1 ++ "/" ++ p.2)) addr p
      (recoverAgentsFromBlockchain ethersId w bootstrap db) := by
  rw [recoverAgentsFromBlockchain]
  exact recoverFold_creates ethersId w addr bootstrap (db, []) p hp huniq habs
    (by simp) hchain hmiss

theorem recoverAgents_bootstrap_witness :
    recoveryOutcomeOk
      ⟨fun _ => some "0xA", fun _ => false, fun _ => false, fun _ => true⟩
      ((fun s : String => s) ("r" ++ "/" ++ "b")) "0xA" ("r", "b")
      (recoverAgentsFromBlockchain (fun s => s)
        ⟨fun _ => some "0xA", fun _ => false, fun _ => false, fun _ => true⟩
        [("r", "b")] []) :=
  recoverAgents_bootstrap (fun s => s)
    ⟨fun _ => some "0xA", fun _ => false, fun _ => false, fun _ => true⟩
    [("r", "b")] [] ("r", "b") "0xA"
    (List.mem_singleton.mpr rfl)
    (fun q hq => Or.inl (List.mem_singleton.mp hq))
    (fun r hr => absurd hr (List.not_mem_nil r))
    rfl (by decide)

/-! ## C10 theorems -/

theorem stripFirst_0x (t : List Char) :
    stripFirst ['0', 'x'] ('0' :: 'x' :: t) = t := by
  have hpre : (['0', 'x'].isPrefixOf ('0' :: 'x' :: t)) = true := by
    simp [List.isPrefixOf]
  simp [stripFirst, hpre]

theorem pm2NameOf_0x (t : List Char) :
    pm2NameOf (String.mk ('0' :: 'x' :: t)) = String.mk (t.take 16) := by
  show String.mk ((stripFirst ['0', 'x'] ('0' :: 'x' :: t)).take 16) = String.mk (t.take 16)
  rw [stripFirst_0x]

theorem pm2NameOf_ne_fullHash (t t2 : List Char) (ht : t.length = 64) :
    pm2NameOf (String.mk ('0' :: 'x' :: t2)) ≠ String.mk ('0' :: 'x' :: t) := by
  intro heq
  rw [pm2NameOf_0x] at heq
  have hdata : t2.take 16 = '0' :: 'x' :: t := congrArg String.data heq
  have hlen := congrArg List.length hdata
  rw [List.length_take] at hlen
  simp [ht] at hlen
  have : min 16 t2.length ≤ 16 := min_le_left _ _
  omega

/-- C10: GET /api/stats/:repo_url/:branch_name queries PM2 with the full
0x-prefixed branch hash, while workers are registered under the first 16
hex characters without the prefix, so the describe lookup matches no
supervised worker and the status field is reported `unknown` — even when
the worker registered under the truncated name is online in the process
list. -/
theorem statsStatus_unknown_despite_online (procs : List (String × String))
    (t : List Char) (ht : t.length = 64)
    (hw : ∀ pr ∈ procs, ∃ t2 : List Char,
      t2.length = 64 ∧ pr.1 = pm2NameOf (String.mk ('0' :: 'x' :: t2))) :
    pm2NameOf (String.mk ('0' :: 'x' :: t)) ≠ String.mk ('0' :: 'x' :: t) ∧
    describePm2 procs (String.mk ('0' :: 'x' :: t)) = none ∧
    statsStatusField procs (String.mk ('0' :: 'x' :: t)) = "unknown" := by
  have hdesc : describePm2 procs (String.mk ('0' :: 'x' :: t)) = none := by
    induction procs with
    | nil => rfl
    | cons pr ps ih =>
      rcases hw pr (List.mem_cons_self pr ps) with ⟨t2, _, hpr⟩
      have hne : pr.1 ≠ String.mk ('0' :: 'x' :: t) := by
        rw [hpr]; exact pm2NameOf_ne_fullHash t t2 ht
      have hbeq : (pr.1 == String.mk ('0' :: 'x' :: t)) = false :=
        beq_eq_false_iff_ne.mpr hne
      have htail := ih (fun q hq => hw q (List.mem_cons_of_mem pr hq))
      simpa [describePm2, List.find?, hbeq] using htail
  refine ⟨pm2NameOf_ne_fullHash t t ht, hdesc, ?_⟩
  rw [statsStatusField, hdesc]
  rfl

theorem statsStatus_unknown_despite_online_witness :
    statsStatusField
      [(pm2NameOf (String.mk ('0' :: 'x' :: String.toList
        "311d02e1e23d9e6dda12cd3309192ed62c2fa4a490e1df456978a599493353c2")), "online")]
      (String.mk ('0' :: 'x' :: String.toList
        "311d02e1e23d9e6dda12cd3309192ed62c2fa4a490e1df456978a599493353c2"))
      = "unknown" :=
  (statsStatus_unknown_despite_online _ _ (by decide)
    (by
      intro pr hpr
      rw [List.mem_singleton.mp hpr]
      exact ⟨String.toList
        "311d02e1e23d9e6dda12cd3309192ed62c2fa4a490e1df456978a599493353c2",
        by decide, rfl⟩)).2.2

end SomniaGitAgent
